import Mathlib

set_option autoImplicit false

namespace EpsteinBrowser

/-!
Shallow embedding of the PDF page cache and prefetch coordinator of the
document-browsing application (src/lib/cache.ts, src/app/file-browser.tsx,
src/app/file/[...path]/page.tsx).

A JavaScript `Map` keeps its entries in insertion order, and
`map.keys().next().value` returns the first-inserted (oldest) key.  We model
the map as an association list, oldest entry first, newest last.
-/

/-- Entries of the JS `Map<string, string[]>` backing `pdfPagesCache`, in
insertion order, oldest first, newest last. -/
abbrev Cache := List (String × List String)

/-- Constant `PDF_CACHE_MAX_SIZE` from src/lib/cache.ts (line 61). -/
def PDF_CACHE_MAX_SIZE : Nat := 10

/-- Model of `Map.prototype.get`: the value stored under `key`, if any
(first match; keys of a JS `Map` are unique). -/
def mapGet (key : String) : Cache → Option (List String)
  | [] => none
  | e :: rest => if e.1 == key then some e.2 else mapGet key rest

/-- Model of `Map.prototype.has`. -/
def mapHas (key : String) : Cache → Bool
  | [] => false
  | e :: rest => e.1 == key || mapHas key rest

/-- Model of `Map.prototype.delete`: removes the entry stored under `key`
(leaving the order of the others unchanged). -/
def mapDelete (key : String) : Cache → Cache
  | [] => []
  | e :: rest => if e.1 == key then mapDelete key rest else e :: mapDelete key rest

/-- Model of `Map.prototype.set`: if `key` is present its value is updated in
place (keeping its position), otherwise the new entry is appended at the end
(most-recently-inserted position). -/
def mapSet (key : String) (v : List String) (m : Cache) : Cache :=
  if mapHas key m then m.map (fun e => if e.1 == key then (key, v) else e)
  else m ++ [(key, v)]

/-- Model of `getPdfPages` (src/lib/cache.ts lines 64-72): returns the cached
value and the updated cache.  On a hit the entry is deleted and re-inserted,
moving it to the most-recently-used (last) position. -/
def getPdfPages (key : String) (m : Cache) : Option (List String) × Cache :=
  match mapGet key m with
  | some value => (some value, mapSet key value (mapDelete key m))
  | none => (none, m)

/-- Model of the eviction loop of `setPdfPages` (src/lib/cache.ts lines 81-86):
`while (size >= PDF_CACHE_MAX_SIZE) { const oldestKey = keys().next().value;
if (oldestKey) delete(oldestKey); }`.  The guard `if (oldestKey)` is a JS
truthiness test, so when the oldest key is the empty string (falsy) the loop
deletes nothing and never terminates; `none` models that divergence. -/
def evictOldest : Cache → Option Cache
  | [] => some []
  | (k, v) :: rest =>
    if ((k, v) :: rest).length ≥ PDF_CACHE_MAX_SIZE then
      if k == "" then none else evictOldest rest
    else some ((k, v) :: rest)

/-- Model of `setPdfPages` (src/lib/cache.ts lines 74-89): delete the key if
present, run the eviction loop, then insert at the most-recently-used position.
The result is `none` when the eviction loop diverges. -/
def setPdfPages (key : String) (pages : List String) (m : Cache) : Option Cache :=
  let m1 := if mapHas key m then mapDelete key m else m
  (evictOldest m1).map (fun m2 => mapSet key pages m2)

/-- Run a sequence of `setPdfPages` calls; `none` as soon as one diverges. -/
def setFold : List (String × List String) → Cache → Option Cache
  | [], c => some c
  | (k, ps) :: rest, c => (setPdfPages k ps c).bind (fun c' => setFold rest c')

/-- Well-formedness maintained by the cache in the application: keys are
distinct (a JS `Map` cannot hold duplicates) and the size bound holds. -/
def CacheWF (c : Cache) : Prop :=
  (c.map Prod.fst).Nodup ∧ c.length ≤ PDF_CACHE_MAX_SIZE

theorem mapGet_cons (k : String) (e : String × List String) (rest : Cache) :
    mapGet k (e :: rest) = if e.1 == k then some e.2 else mapGet k rest := rfl

theorem mapHas_cons (k : String) (e : String × List String) (rest : Cache) :
    mapHas k (e :: rest) = (e.1 == k || mapHas k rest) := rfl

theorem mapDelete_cons (k : String) (e : String × List String) (rest : Cache) :
    mapDelete k (e :: rest) =
      if e.1 == k then mapDelete k rest else e :: mapDelete k rest := rfl

theorem mapHas_iff_mem (k : String) (m : Cache) :
    mapHas k m = true ↔ k ∈ m.map Prod.fst := by
  induction m with
  | nil => simp [mapHas]
  | cons e rest ih =>
    simp only [mapHas_cons, Bool.or_eq_true, beq_iff_eq, List.map_cons, List.mem_cons, ih]
    exact or_congr_left eq_comm

theorem mapGet_eq_none_iff (k : String) (m : Cache) :
    mapGet k m = none ↔ k ∉ m.map Prod.fst := by
  induction m with
  | nil => simp [mapGet]
  | cons e rest ih =>
    rw [mapGet_cons]
    by_cases h : e.1 = k
    · simp [h]
    · simp [h, ih, Ne.symm h]

theorem mapHas_eq_false_iff (k : String) (m : Cache) :
    mapHas k m = false ↔ k ∉ m.map Prod.fst := by
  rw [← mapHas_iff_mem]
  constructor
  · intro h hmem
    rw [h] at hmem
    exact Bool.false_ne_true hmem
  · intro h
    cases hb : mapHas k m with
    | false => rfl
    | true => exact absurd hb h

theorem getPdfPages_fst (k : String) (m : Cache) :
    (getPdfPages k m).1 = mapGet k m := by
  cases h : mapGet k m <;> simp [getPdfPages, h]

theorem getPdfPages_miss (k : String) (m : Cache) (h : mapGet k m = none) :
    getPdfPages k m = (none, m) := by
  simp [getPdfPages, h]

theorem mapSet_of_not_has (k : String) (v : List String) (m : Cache)
    (h : mapHas k m = false) : mapSet k v m = m ++ [(k, v)] := by
  simp [mapSet, h]

theorem mapDelete_of_not_mem (k : String) (m : Cache)
    (h : k ∉ m.map Prod.fst) : mapDelete k m = m := by
  induction m with
  | nil => rfl
  | cons e rest ih =>
    simp only [List.map_cons, List.mem_cons, not_or] at h
    rw [mapDelete_cons, if_neg (by simp only [beq_iff_eq]; exact Ne.symm h.1), ih h.2]

theorem mapGet_mapDelete_ne (k j : String) (m : Cache) (h : j ≠ k) :
    mapGet j (mapDelete k m) = mapGet j m := by
  induction m with
  | nil => rfl
  | cons e rest ih =>
    by_cases hek : e.1 = k
    · have h2 : (e.1 == j) = false := by
        simp only [beq_eq_false_iff_ne, hek]
        exact Ne.symm h
      rw [mapDelete_cons, if_pos (by simp [hek]), mapGet_cons, if_neg (by simp [h2]), ih]
    · rw [mapDelete_cons, if_neg (by simp [hek]), mapGet_cons, mapGet_cons]
      cases he : e.1 == j with
      | false => simp only [Bool.false_eq_true, if_false, ih]
      | true => simp

theorem not_mem_mapDelete (k : String) (m : Cache) :
    k ∉ (mapDelete k m).map Prod.fst := by
  induction m with
  | nil => simp [mapDelete]
  | cons e rest ih =>
    by_cases hek : e.1 = k
    · rw [mapDelete_cons, if_pos (by simp [hek])]
      exact ih
    · rw [mapDelete_cons, if_neg (by simp [hek])]
      simp only [List.map_cons, List.mem_cons, not_or]
      exact ⟨fun hk => hek hk.symm, ih⟩

theorem mapDelete_length (k : String) (m : Cache)
    (hnd : (m.map Prod.fst).Nodup) (hmem : k ∈ m.map Prod.fst) :
    (mapDelete k m).length + 1 = m.length := by
  induction m with
  | nil => simp at hmem
  | cons e rest ih =>
    simp only [List.map_cons, List.nodup_cons] at hnd
    simp only [List.map_cons, List.mem_cons] at hmem
    by_cases hek : e.1 = k
    · have hrest : mapDelete k rest = rest :=
        mapDelete_of_not_mem k rest (by rw [← hek]; exact hnd.1)
      rw [mapDelete_cons, if_pos (by simp [hek]), hrest, List.length_cons]
    · rcases hmem with hk | hk
      · exact absurd hk.symm hek
      · rw [mapDelete_cons, if_neg (by simp [hek]), List.length_cons, List.length_cons,
          ih hnd.2 hk]

theorem evictOldest_of_lt (m : Cache) (h : m.length < PDF_CACHE_MAX_SIZE) :
    evictOldest m = some m := by
  match m with
  | [] => rfl
  | (k, v) :: rest =>
    rw [evictOldest, if_neg (Nat.not_le.mpr h)]

theorem evictOldest_some_lt (m m' : Cache) (h : evictOldest m = some m') :
    m'.length < PDF_CACHE_MAX_SIZE := by
  induction m with
  | nil =>
    simp only [evictOldest, Option.some.injEq] at h
    rw [← h]
    decide
  | cons e rest ih =>
    obtain ⟨k, v⟩ := e
    rw [evictOldest] at h
    by_cases hlen : ((k, v) :: rest).length ≥ PDF_CACHE_MAX_SIZE
    · rw [if_pos hlen] at h
      by_cases hk : (k == "") = true
      · rw [if_pos hk] at h
        exact absurd h (by simp)
      · rw [if_neg hk] at h
        exact ih h
    · rw [if_neg hlen] at h
      injection h with h
      rw [← h]
      exact Nat.not_le.mp hlen

theorem evictOldest_mem (m m' : Cache) (h : evictOldest m = some m') :
    ∀ e ∈ m', e ∈ m := by
  induction m with
  | nil =>
    simp only [evictOldest, Option.some.injEq] at h
    rw [← h]
    intro e he
    exact he
  | cons a rest ih =>
    obtain ⟨k, v⟩ := a
    rw [evictOldest] at h
    by_cases hlen : ((k, v) :: rest).length ≥ PDF_CACHE_MAX_SIZE
    · rw [if_pos hlen] at h
      by_cases hk : (k == "") = true
      · rw [if_pos hk] at h
        exact absurd h (by simp)
      · rw [if_neg hk] at h
        intro e he
        exact List.mem_cons_of_mem _ (ih h e he)
    · rw [if_neg hlen] at h
      injection h with h
      rw [← h]
      intro e he
      exact he

theorem not_mem_keys_evictOldest (k : String) (m m' : Cache)
    (hm : evictOldest m = some m') (h : k ∉ m.map Prod.fst) :
    k ∉ m'.map Prod.fst := by
  intro hk
  rcases List.mem_map.1 hk with ⟨e, he, hfst⟩
  exact h (List.mem_map.2 ⟨e, evictOldest_mem m m' hm e he, hfst⟩)

theorem mapSet_length_le (k : String) (v : List String) (m : Cache) :
    (mapSet k v m).length ≤ m.length + 1 := by
  unfold mapSet
  by_cases h : mapHas k m = true
  · rw [if_pos h, List.length_map]
    exact Nat.le_succ _
  · rw [if_neg h, List.length_append]
    simp

theorem key_not_mem_pending (k : String) (c : Cache) :
    k ∉ ((if mapHas k c then mapDelete k c else c).map Prod.fst) := by
  cases hb : mapHas k c with
  | true =>
    rw [if_pos rfl]
    exact not_mem_mapDelete k c
  | false =>
    rw [if_neg (by simp)]
    exact (mapHas_eq_false_iff k c).1 hb

theorem mapGet_append_self (k : String) (v : List String) (m : Cache)
    (h : k ∉ m.map Prod.fst) : mapGet k (m ++ [(k, v)]) = some v := by
  induction m with
  | nil => simp [mapGet]
  | cons e rest ih =>
    simp only [List.map_cons, List.mem_cons, not_or] at h
    rw [List.cons_append, mapGet_cons, if_neg (by simp; exact fun hk => h.1 hk.symm)]
    exact ih h.2

theorem mapGet_append_ne (j k : String) (v : List String) (m : Cache) (h : j ≠ k) :
    mapGet j (m ++ [(k, v)]) = mapGet j m := by
  induction m with
  | nil =>
    simp only [List.nil_append, mapGet, if_neg (show ¬(k == j) = true by simp [Ne.symm h])]
  | cons e rest ih =>
    rw [List.cons_append, mapGet_cons, mapGet_cons]
    cases he : e.1 == j with
    | true => rfl
    | false => simpa using ih

theorem setPdfPages_some_length (k : String) (ps : List String) (c c' : Cache)
    (h : setPdfPages k ps c = some c') : c'.length ≤ PDF_CACHE_MAX_SIZE := by
  unfold setPdfPages at h
  dsimp only [] at h
  rcases hev : evictOldest (if mapHas k c then mapDelete k c else c) with _ | m2
  · rw [hev] at h
    exact absurd h (by simp)
  · rw [hev] at h
    simp only [Option.map_some', Option.some.injEq] at h
    have hlt := evictOldest_some_lt _ _ hev
    have hle := mapSet_length_le k ps m2
    rw [← h]
    omega

theorem setPdfPages_some_shape (k : String) (ps : List String) (c c' : Cache)
    (h : setPdfPages k ps c = some c') :
    ∃ m2, evictOldest (if mapHas k c then mapDelete k c else c) = some m2 ∧
      c' = m2 ++ [(k, ps)] ∧ k ∉ m2.map Prod.fst := by
  unfold setPdfPages at h
  dsimp only [] at h
  rcases hev : evictOldest (if mapHas k c then mapDelete k c else c) with _ | m2
  · rw [hev] at h
    exact absurd h (by simp)
  · rw [hev] at h
    simp only [Option.map_some', Option.some.injEq] at h
    have hk : k ∉ m2.map Prod.fst :=
      not_mem_keys_evictOldest k _ m2 hev (key_not_mem_pending k c)
    refine ⟨m2, rfl, ?_, hk⟩
    rw [← h, mapSet_of_not_has _ _ _ ((mapHas_eq_false_iff _ _).2 hk)]

theorem setPdfPages_some_get (k : String) (ps : List String) (c c' : Cache)
    (h : setPdfPages k ps c = some c') : mapGet k c' = some ps := by
  rcases setPdfPages_some_shape k ps c c' h with ⟨m2, _, hc', hk⟩
  rw [hc']
  exact mapGet_append_self k ps m2 hk

theorem PDF_CACHE_MAX_SIZE_eq : PDF_CACHE_MAX_SIZE = 10 := rfl

theorem setPdfPages_fresh (k : String) (ps : List String) (c : Cache)
    (hk : mapHas k c = false) (hne : ∀ e ∈ c, e.1 ≠ "")
    (hlen : c.length ≤ PDF_CACHE_MAX_SIZE) :
    setPdfPages k ps c =
      some (c.drop (c.length + 1 - PDF_CACHE_MAX_SIZE) ++ [(k, ps)]) := by
  unfold setPdfPages
  dsimp only []
  rw [if_neg (by simp [hk])]
  rcases Nat.lt_or_ge c.length PDF_CACHE_MAX_SIZE with hlt | hge
  · have hz : c.length + 1 - PDF_CACHE_MAX_SIZE = 0 := by
      simp only [PDF_CACHE_MAX_SIZE_eq] at hlt ⊢
      omega
    rw [evictOldest_of_lt c hlt, hz, List.drop_zero]
    simp only [Option.map_some']
    rw [mapSet_of_not_has _ _ _ hk]
  · have h10 : c.length = PDF_CACHE_MAX_SIZE := Nat.le_antisymm hlen hge
    match c, hne, hk, h10 with
    | [], hne, hk, h10 => exact absurd h10 (by decide)
    | (k0, v0) :: t, hne, hk, h10 =>
      have hk0 : k0 ≠ "" := hne (k0, v0) (List.mem_cons_self _ _)
      have hne0 : ¬(k0 == "") = true := by simp [hk0]
      have hge' : ((k0, v0) :: t).length ≥ PDF_CACHE_MAX_SIZE := h10.ge
      have h9 : t.length < PDF_CACHE_MAX_SIZE := by
        simp only [List.length_cons, PDF_CACHE_MAX_SIZE_eq] at h10 ⊢
        omega
      have hkt : mapHas k t = false := by
        rw [mapHas_cons] at hk
        exact (Bool.or_eq_false_iff.1 hk).2
      have hone : ((k0, v0) :: t).length + 1 - PDF_CACHE_MAX_SIZE = 1 := by
        simp only [List.length_cons, PDF_CACHE_MAX_SIZE_eq] at h10 ⊢
        omega
      rw [evictOldest, if_pos hge', if_neg hne0, evictOldest_of_lt t h9]
      simp only [Option.map_some']
      rw [mapSet_of_not_has _ _ _ hkt, hone]
      rfl

theorem setFold_fresh (ops : List (String × List String)) (c : Cache)
    (hnd : ((c ++ ops).map Prod.fst).Nodup)
    (hne : ∀ e ∈ c ++ ops, e.1 ≠ "")
    (hlen : c.length ≤ PDF_CACHE_MAX_SIZE) :
    setFold ops c = some ((c ++ ops).drop ((c ++ ops).length - PDF_CACHE_MAX_SIZE)) := by
  induction ops generalizing c with
  | nil =>
    have hz : c.length - PDF_CACHE_MAX_SIZE = 0 := Nat.sub_eq_zero_of_le hlen
    rw [setFold, List.append_nil, hz, List.drop_zero]
  | cons op rest ih =>
    obtain ⟨k, ps⟩ := op
    have hnd' := hnd
    rw [List.map_append, List.nodup_append] at hnd'
    have hknotc : k ∉ c.map Prod.fst := fun hmem => hnd'.2.2 hmem (by simp)
    have hstep := setPdfPages_fresh k ps c ((mapHas_eq_false_iff k c).2 hknotc)
      (fun e he => hne e (List.mem_append_left _ he)) hlen
    rcases Nat.lt_or_ge c.length PDF_CACHE_MAX_SIZE with hlt | hge
    · have hz : c.length + 1 - PDF_CACHE_MAX_SIZE = 0 := by
        simp only [PDF_CACHE_MAX_SIZE_eq] at hlt ⊢
        omega
      rw [hz, List.drop_zero] at hstep
      have hassoc : (c ++ [(k, ps)]) ++ rest = c ++ (k, ps) :: rest := by
        simp [List.append_assoc]
      have hih := ih (c ++ [(k, ps)])
        (by rw [hassoc]; exact hnd)
        (by rw [hassoc]; exact hne)
        (by simp only [List.length_append, List.length_singleton]
            simp only [PDF_CACHE_MAX_SIZE_eq] at hlt ⊢
            omega)
      rw [setFold, hstep, Option.some_bind, hih, hassoc]
    · have h10 : c.length = PDF_CACHE_MAX_SIZE := Nat.le_antisymm hlen hge
      match c, hnd, hne, hknotc, hstep, h10 with
      | [], hnd, hne, hknotc, hstep, h10 => exact absurd h10 (by decide)
      | e :: t, hnd, hne, hknotc, hstep, h10 =>
        have hone : (e :: t).length + 1 - PDF_CACHE_MAX_SIZE = 1 := by
          simp only [List.length_cons, PDF_CACHE_MAX_SIZE_eq] at h10 ⊢
          omega
        rw [hone] at hstep
        have hdrop1 : (e :: t).drop 1 = t := rfl
        rw [hdrop1] at hstep
        have hsub : ((t ++ [(k, ps)]) ++ rest).Sublist ((e :: t) ++ (k, ps) :: rest) := by
          have h1 : (t ++ [(k, ps)] ++ rest).Sublist (e :: (t ++ [(k, ps)] ++ rest)) :=
            List.sublist_cons_self _ _
          simp only [List.append_assoc, List.singleton_append, List.cons_append] at h1 ⊢
          exact h1
        have hih := ih (t ++ [(k, ps)])
          (List.Nodup.sublist (hsub.map Prod.fst) hnd)
          (fun x hx => hne x (hsub.subset hx))
          (by simp only [List.length_append, List.length_singleton]
              simp only [List.length_cons, PDF_CACHE_MAX_SIZE_eq] at h10 ⊢
              omega)
        rw [setFold, hstep, Option.some_bind, hih]
        congr 1
        have hassoc : (t ++ [(k, ps)]) ++ rest = t ++ (k, ps) :: rest := by
          simp [List.append_assoc]
        rw [hassoc]
        rw [List.cons_append]
        have hlen2 : (e :: (t ++ (k, ps) :: rest)).length - PDF_CACHE_MAX_SIZE
            = ((t ++ (k, ps) :: rest).length - PDF_CACHE_MAX_SIZE) + 1 := by
          simp only [List.length_append, List.length_cons, PDF_CACHE_MAX_SIZE_eq] at h10 ⊢
          omega
        rw [hlen2, List.drop_succ_cons]

/-- Ten distinct single-letter keys A..J with one page each. -/
def tenEntries : List (String × List String) :=
  [("A", ["a"]), ("B", ["b"]), ("C", ["c"]), ("D", ["d"]), ("E", ["e"]),
   ("F", ["f"]), ("G", ["g"]), ("H", ["h"]), ("I", ["i"]), ("J", ["j"])]

/-- Scenario of spec property 2: fill the cache with A..J, `get A`, then
`set K`. -/
def lruScenario : Option Cache :=
  (setFold tenEntries []).bind (fun c1 => setPdfPages "K" ["k"] (getPdfPages "A" c1).2)

/-- Expected final cache of the scenario: B evicted, A refreshed, K newest. -/
def lruExpected : Cache :=
  [("C", ["c"]), ("D", ["d"]), ("E", ["e"]), ("F", ["f"]), ("G", ["g"]),
   ("H", ["h"]), ("I", ["i"]), ("J", ["j"]), ("A", ["a"]), ("K", ["k"])]

/-- C3: from an empty cache, inserting the ten distinct keys A..J, then
`getPdfPages A` (which refreshes the recency of A), then `setPdfPages K`
evicts exactly B — the least-recently-used key after the refresh — and not A;
A, C..J and K all remain present, in recency order C,...,J,A,K. -/
theorem lru_recency_scenario :
    lruScenario = some lruExpected ∧
    mapHas "B" lruExpected = false ∧
    mapHas "A" lruExpected = true ∧
    mapHas "C" lruExpected = true ∧
    mapHas "D" lruExpected = true ∧
    mapHas "E" lruExpected = true ∧
    mapHas "F" lruExpected = true ∧
    mapHas "G" lruExpected = true ∧
    mapHas "H" lruExpected = true ∧
    mapHas "I" lruExpected = true ∧
    mapHas "J" lruExpected = true ∧
    mapHas "K" lruExpected = true ∧
    lruExpected.length = PDF_CACHE_MAX_SIZE := by decide

/-- C1 (amended): a `setPdfPages` call that terminates always leaves at most
`PDF_CACHE_MAX_SIZE` entries in the cache — for arbitrary keys and prior
states — and for every sequence of distinct NON-EMPTY keys inserted into an
initially empty cache, every call terminates and the final cache holds
exactly the most recently inserted keys (all of them if there are at most
ten, otherwise the last ten).  The non-emptiness restriction is forced by
the counterexample `setPdfPages_capacity_cex`: an empty-string key makes the
eviction loop spin forever once it becomes the oldest entry at capacity. -/
theorem setPdfPages_capacity :
    (∀ (k : String) (ps : List String) (c c' : Cache),
        setPdfPages k ps c = some c' → c'.length ≤ PDF_CACHE_MAX_SIZE) ∧
    (∀ ops : List (String × List String),
        (ops.map Prod.fst).Nodup → (∀ e ∈ ops, e.1 ≠ "") →
        setFold ops [] = some (ops.drop (ops.length - PDF_CACHE_MAX_SIZE))) := by
  constructor
  · exact fun k ps c c' h => setPdfPages_some_length k ps c c' h
  · intro ops hnd hne
    have h := setFold_fresh ops [] (by simpa using hnd) (by simpa using hne)
      (by simp [PDF_CACHE_MAX_SIZE])
    simpa using h

/-- Eleven pairwise distinct keys whose first key is the empty string. -/
def elevenEmptyFirst : List (String × List String) :=
  [("", ["p0"]), ("k1", ["p1"]), ("k2", ["p2"]), ("k3", ["p3"]), ("k4", ["p4"]),
   ("k5", ["p5"]), ("k6", ["p6"]), ("k7", ["p7"]), ("k8", ["p8"]), ("k9", ["p9"]),
   ("k10", ["p10"])]

/-- C1 counterexample: inserting these 11 pairwise distinct keys into an empty
cache does NOT leave the 10 most-recently-inserted keys present — the 11th
call never returns (the eviction loop spins on the falsy empty-string oldest
key; `none` is the divergence marker), so no state "after the call" with the
10 most recent keys ever arises. -/
theorem setPdfPages_capacity_cex :
    (elevenEmptyFirst.map Prod.fst).Nodup ∧
    elevenEmptyFirst.length = 11 ∧
    setFold elevenEmptyFirst [] ≠
      some (elevenEmptyFirst.drop (elevenEmptyFirst.length - PDF_CACHE_MAX_SIZE)) ∧
    setFold elevenEmptyFirst [] = none := by decide

/-- Eleven pairwise distinct non-empty keys. -/
def elevenGood : List (String × List String) :=
  [("k1", ["p1"]), ("k2", ["p2"]), ("k3", ["p3"]), ("k4", ["p4"]), ("k5", ["p5"]),
   ("k6", ["p6"]), ("k7", ["p7"]), ("k8", ["p8"]), ("k9", ["p9"]), ("k10", ["p10"]),
   ("k11", ["p11"])]

/-- Witness for `setPdfPages_capacity`: at the concrete sequence `elevenGood`
(11 distinct non-empty keys), the hypotheses hold and the fold ends with the
10 most-recently-inserted entries. -/
theorem setPdfPages_capacity_witness :
    (elevenGood.map Prod.fst).Nodup ∧
    setFold elevenGood [] =
      some (elevenGood.drop (elevenGood.length - PDF_CACHE_MAX_SIZE)) :=
  ⟨by decide, setPdfPages_capacity.2 elevenGood (by decide) (by decide)⟩

/-- C6: re-setting a key that is already present leaves the cache size
unchanged, evicts nothing else (every other key keeps its value), makes a
subsequent `getPdfPages` of that key return the new pages, and moves the key
to the most-recently-used (last) position. -/
theorem setPdfPages_reset_existing (k : String) (p2 : List String) (c : Cache)
    (hwf : CacheWF c) (hmem : mapHas k c = true) :
    ∃ c', setPdfPages k p2 c = some c' ∧
      c'.length = c.length ∧
      (getPdfPages k c').1 = some p2 ∧
      (∀ j, j ≠ k → mapGet j c' = mapGet j c) ∧
      c'.getLast? = some (k, p2) := by
  have hdel : (mapDelete k c).length + 1 = c.length :=
    mapDelete_length k c hwf.1 ((mapHas_iff_mem k c).1 hmem)
  have hlt : (mapDelete k c).length < PDF_CACHE_MAX_SIZE := by
    have h2 := hwf.2
    omega
  have heq : setPdfPages k p2 c = some (mapDelete k c ++ [(k, p2)]) := by
    unfold setPdfPages
    dsimp only []
    rw [if_pos hmem, evictOldest_of_lt _ hlt]
    simp only [Option.map_some']
    rw [mapSet_of_not_has _ _ _ ((mapHas_eq_false_iff _ _).2 (not_mem_mapDelete k c))]
  refine ⟨mapDelete k c ++ [(k, p2)], heq, ?_, ?_, ?_, ?_⟩
  · simp only [List.length_append, List.length_singleton]
    omega
  · rw [getPdfPages_fst]
    exact mapGet_append_self k p2 _ (not_mem_mapDelete k c)
  · intro j hj
    rw [mapGet_append_ne j k p2 _ hj, mapGet_mapDelete_ne k j c hj]
  · exact List.getLast?_concat _

/-- Witness for `setPdfPages_reset_existing` at a concrete two-entry cache. -/
theorem setPdfPages_reset_existing_witness :
    mapHas "A" [("A", ["a1"]), ("B", ["b1"])] = true ∧
    ∃ c', setPdfPages "A" ["a2"] [("A", ["a1"]), ("B", ["b1"])] = some c' ∧
      c'.length = ([("A", ["a1"]), ("B", ["b1"])] : Cache).length ∧
      (getPdfPages "A" c').1 = some ["a2"] ∧
      (∀ j, j ≠ "A" → mapGet j c' = mapGet j [("A", ["a1"]), ("B", ["b1"])]) ∧
      c'.getLast? = some ("A", ["a2"]) :=
  ⟨by decide,
   setPdfPages_reset_existing "A" ["a2"] [("A", ["a1"]), ("B", ["b1"])]
     ⟨by decide, by decide⟩ (by decide)⟩

/-- Concrete cache at capacity whose oldest (first-inserted) key is the empty
string. -/
def fullCacheEmptyOldest : Cache :=
  [("", ["x"]), ("a1", ["v"]), ("a2", ["v"]), ("a3", ["v"]), ("a4", ["v"]),
   ("a5", ["v"]), ("a6", ["v"]), ("a7", ["v"]), ("a8", ["v"]), ("a9", ["v"])]

/-- C9: evaluating `setPdfPages` at a cache at capacity whose
least-recently-used key is the empty string yields the divergence marker
`none` — the source's eviction loop tests `if (oldestKey)`, which is false
for the empty string, so it deletes nothing and never terminates.  The
claim's asserted termination fails exactly here. -/
theorem setPdfPages_empty_key_divergence :
    fullCacheEmptyOldest.length = PDF_CACHE_MAX_SIZE ∧
    setPdfPages "K" ["p"] fullCacheEmptyOldest = none := by decide

/-- C10: `getPdfPages` on a key that is not present returns absent and
returns the cache completely unchanged — no entry added or removed and the
recency order untouched. -/
theorem getPdfPages_absent_frame (k : String) (m : Cache)
    (h : k ∉ m.map Prod.fst) :
    getPdfPages k m = (none, m) :=
  getPdfPages_miss k m ((mapGet_eq_none_iff k m).2 h)

/-- Witness for `getPdfPages_absent_frame` at a concrete one-entry cache. -/
theorem getPdfPages_absent_frame_witness :
    "Z" ∉ ([("A", ["a"])] : Cache).map Prod.fst ∧
    getPdfPages "Z" [("A", ["a"])] = (none, [("A", ["a"])]) :=
  ⟨by decide, getPdfPages_absent_frame "Z" [("A", ["a"])] (by decide)⟩

/-- Production worker base URL (src/app/file-browser.tsx lines 21-24,
production branch of the environment switch). -/
def WORKER_URL : String := "https://epstein-files.rhys-669.workers.dev"

/-- Test whether `pat` is an initial segment of `s`. -/
def listStartsWith : List Char → List Char → Bool
  | [], _ => true
  | _ :: _, [] => false
  | p :: ps, c :: cs => p == c && listStartsWith ps cs

/-- Model of the JS `String.prototype.replace` with a plain-string pattern:
only the first occurrence is replaced. -/
def replaceFirstAux (pat rep : List Char) : List Char → List Char
  | [] => if pat.isEmpty then rep else []
  | c :: cs =>
    if listStartsWith pat (c :: cs) then rep ++ (c :: cs).drop pat.length
    else c :: replaceFirstAux pat rep cs

/-- JS `s.replace(pat, rep)` for plain-string patterns. -/
def replaceFirst (s pat rep : String) : String :=
  String.mk (replaceFirstAux pat.data rep.data s.data)

/-- Model of `String(pageNum).padStart(3, "0")`. -/
def padStart3 (s : String) : String :=
  if s.length ≥ 3 then s else String.mk (List.replicate (3 - s.length) '0') ++ s

/-- Model of `getPageImageUrl` (src/app/file-browser.tsx lines 137-141). -/
def getPageImageUrl (pdfKey : String) (pageNum : Nat) : String :=
  WORKER_URL ++ "/pdfs-as-jpegs/" ++ replaceFirst pdfKey ".pdf" "" ++ "/page-" ++
    padStart3 (toString pageNum) ++ ".jpg"

/-- Model of `loadPagesFromImages` (src/app/file-browser.tsx lines 144-150):
the page-image URLs for pages 1..pageCount, in increasing page order. -/
def loadPagesFromImages (filePath : String) (pageCount : Nat) : List String :=
  (List.range pageCount).map (fun i => getPageImageUrl filePath (i + 1))

/-- Manifest of precomputed page counts, modelling the `PdfManifest` record of
src/lib/cache.ts lines 96-100: entries key ↦ pages. -/
abbrev ManifestMap := List (String × Nat)

/-- External world of one prefetch run: the manifest returned by
`getPdfManifest()` (or `null`), and the outcome of the client-side pdfjs
rendering pipeline for a document — either the rendered page data URLs, in
increasing page order, or a thrown error. -/
structure Oracle where
  manifest : Option ManifestMap
  render : String → Except Unit (List String)

/-- Observable external operations of a prefetch, in order of occurrence:
reading the manifest, warming one page image, or invoking the expensive
pdfjs document-rendering pipeline. -/
inductive Ev where
  | manifestLookup : Ev
  | imageWarm : String → Ev
  | renderDoc : String → Ev
deriving DecidableEq, Repr

/-- Module state touched by `prefetchPdf`: the pdf page cache and the
`prefetchingSet` (src/app/file-browser.tsx line 134). -/
structure PState where
  cache : Cache
  inflight : List String
deriving DecidableEq, Repr

/-- Model of `Set.prototype.add`. -/
def setAdd (k : String) (s : List String) : List String :=
  if s.contains k then s else k :: s

/-- Model of `Set.prototype.delete`. -/
def setRemove (k : String) (s : List String) : List String :=
  s.filter (fun x => !(x == k))

/-- Lookup `manifest?.[filePath]?.pages` (src/app/file-browser.tsx line 160). -/
def manifestEntryPages (ora : Oracle) (k : String) : Option Nat :=
  match ora.manifest with
  | none => none
  | some mf => (mf.find? (fun e => e.1 == k)).map Prod.snd

/-- The test `manifestEntry && manifestEntry.pages > 0` (src/app/file-browser.tsx
line 163): the page count when the cheap pre-rendered-images path is taken. -/
def cheapPages (ora : Oracle) (k : String) : Option Nat :=
  match manifestEntryPages ora k with
  | some n => if n > 0 then some n else none
  | none => none

/-- Synchronous prefix of `prefetchPdf` (src/app/file-browser.tsx lines
153-156), everything executed before the first `await`: the guard
`if (getPdfPages(filePath) || prefetchingSet.has(filePath)) return;` — whose
`getPdfPages` call refreshes recency on a cache hit — followed, when the
guard passes, by `prefetchingSet.add(filePath)`.  Returns the state after the
prefix and whether the call claimed the key and proceeds to the body. -/
def prefetchSync (k : String) (s : PState) : PState × Bool :=
  match getPdfPages k s.cache with
  | (some _, c') => (⟨c', s.inflight⟩, false)
  | (none, c') =>
    if s.inflight.contains k then (⟨c', s.inflight⟩, false)
    else (⟨c', setAdd k s.inflight⟩, true)

/-- Continuation of `prefetchPdf` after the claim (src/app/file-browser.tsx
lines 158-218): the `try` body (manifest-backed cheap path or pdfjs
fallback), the `catch` that swallows any error, and the `finally` that
removes the key from `prefetchingSet`.  Returns the trace of external events
and the final state; a `none` final state models divergence of the
`setPdfPages` eviction loop, in which case the `finally` never runs.  The
per-image warm-up promises of the cheap path resolve on both load and error,
so that path never throws; in the fallback path a thrown rendering error is
swallowed by the `catch` and nothing is written to the cache.  The prefetch
in src/app/file/[...path]/page.tsx lines 18-64 has no manifest branch; it is
modelled separately as `prefetchRestPage`. -/
def prefetchRest (ora : Oracle) (k : String) (s : PState) : List Ev × Option PState :=
  match cheapPages ora k with
  | some n =>
    let urls := loadPagesFromImages k n
    match setPdfPages k urls s.cache with
    | none => (Ev.manifestLookup :: urls.map Ev.imageWarm, none)
    | some c2 => (Ev.manifestLookup :: urls.map Ev.imageWarm,
        some ⟨c2, setRemove k s.inflight⟩)
  | none =>
    match ora.render k with
    | Except.error _ => ([Ev.manifestLookup, Ev.renderDoc k],
        some ⟨s.cache, setRemove k s.inflight⟩)
    | Except.ok pages =>
      if pages.length > 0 then
        match setPdfPages k pages s.cache with
        | none => ([Ev.manifestLookup, Ev.renderDoc k], none)
        | some c2 => ([Ev.manifestLookup, Ev.renderDoc k],
            some ⟨c2, setRemove k s.inflight⟩)
      else ([Ev.manifestLookup, Ev.renderDoc k], some ⟨s.cache, setRemove k s.inflight⟩)

/-- Model of one `prefetchPdf` call (src/app/file-browser.tsx lines 153-219)
run to completion without interleaving. -/
def prefetchPdf (ora : Oracle) (k : String) (s : PState) : List Ev × Option PState :=
  match prefetchSync k s with
  | (s1, true) => prefetchRest ora k s1
  | (s1, false) => ([], some s1)

/-- Two concurrent `prefetchPdf` calls for the same key under the cooperative
single-threaded scheduler: the first call runs its synchronous prefix,
suspends at its first `await`, the second call then runs to completion, and
finally the first call resumes and finishes.  Returns the combined event
trace and final state. -/
def runTwoPrefetch (ora : Oracle) (k : String) (s : PState) : List Ev × Option PState :=
  match prefetchSync k s with
  | (s1, false) => prefetchPdf ora k s1
  | (s1, true) =>
    match prefetchPdf ora k s1 with
    | (t2, none) => (t2, none)
    | (t2, some s2) =>
      let r := prefetchRest ora k s2
      (t2 ++ r.1, r.2)

/-- Number of manifest reads in a trace. -/
def countManifest : List Ev → Nat
  | [] => 0
  | Ev.manifestLookup :: t => countManifest t + 1
  | _ :: t => countManifest t

/-- Number of invocations of the expensive rendering pipeline in a trace. -/
def countRender : List Ev → Nat
  | [] => 0
  | Ev.renderDoc _ :: t => countRender t + 1
  | _ :: t => countRender t

theorem countManifest_map_imageWarm (l : List String) :
    countManifest (l.map Ev.imageWarm) = 0 := by
  induction l with
  | nil => rfl
  | cons a t ih => exact ih

theorem countRender_map_imageWarm (l : List String) :
    countRender (l.map Ev.imageWarm) = 0 := by
  induction l with
  | nil => rfl
  | cons a t ih => exact ih

theorem filter_ne_of_not_contains (k : String) (l : List String)
    (h : l.contains k = false) : l.filter (fun x => !(x == k)) = l := by
  induction l with
  | nil => rfl
  | cons a t ih =>
    rw [List.contains_cons, Bool.or_eq_false_iff] at h
    have hka : (a == k) = false := by
      simp only [beq_eq_false_iff_ne] at h ⊢
      exact fun hak => h.1 hak.symm
    rw [List.filter_cons, if_pos (by rw [hka]; rfl), ih h.2]

theorem setRemove_cons_self (k : String) (l : List String)
    (h : l.contains k = false) : setRemove k (k :: l) = l := by
  unfold setRemove
  rw [List.filter_cons, if_neg (by simp), filter_ne_of_not_contains k l h]

theorem setRemove_setAdd (k : String) (l : List String)
    (h : l.contains k = false) : setRemove k (setAdd k l) = l := by
  unfold setAdd
  rw [if_neg (by simp only [h]; decide)]
  exact setRemove_cons_self k l h

theorem prefetchSync_claims (k : String) (s : PState)
    (hc : (getPdfPages k s.cache).1 = none) (hf : s.inflight.contains k = false) :
    prefetchSync k s = (⟨s.cache, k :: s.inflight⟩, true) := by
  have hmg : mapGet k s.cache = none := by
    rw [← getPdfPages_fst]
    exact hc
  have hgp := getPdfPages_miss k s.cache hmg
  unfold prefetchSync
  rw [hgp]
  dsimp only []
  rw [if_neg (by simp only [hf]; decide)]
  unfold setAdd
  rw [if_neg (by simp only [hf]; decide)]

theorem prefetchPdf_trace_of_inflight (ora : Oracle) (k : String) (s : PState)
    (hf : s.inflight.contains k = true) : (prefetchPdf ora k s).1 = [] := by
  unfold prefetchPdf prefetchSync
  rcases hg : getPdfPages k s.cache with ⟨o, c'⟩
  cases o with
  | some v => rfl
  | none =>
    dsimp only []
    rw [if_pos hf]

theorem prefetchPdf_of_inflight_miss (ora : Oracle) (k : String) (s : PState)
    (hc : (getPdfPages k s.cache).1 = none) (hf : s.inflight.contains k = true) :
    prefetchPdf ora k s = ([], some s) := by
  have hmg : mapGet k s.cache = none := by
    rw [← getPdfPages_fst]
    exact hc
  have hgp := getPdfPages_miss k s.cache hmg
  unfold prefetchPdf prefetchSync
  rw [hgp]
  dsimp only []
  rw [if_pos hf]

theorem prefetchRest_counts (ora : Oracle) (k : String) (s : PState) :
    countManifest (prefetchRest ora k s).1 = 1 ∧
    countRender (prefetchRest ora k s).1 ≤ 1 := by
  rcases hcp : cheapPages ora k with _ | n
  · rcases hr : ora.render k with e | pages
    · simp only [prefetchRest, hcp, hr]
      exact ⟨rfl, Nat.le_refl 1⟩
    · by_cases hp : pages.length > 0
      · rcases hsp : setPdfPages k pages s.cache with _ | c2 <;>
          simp only [prefetchRest, hcp, hr, if_pos hp, hsp] <;>
          exact ⟨rfl, Nat.le_refl 1⟩
      · simp only [prefetchRest, hcp, hr, if_neg hp]
        exact ⟨rfl, Nat.le_refl 1⟩
  · rcases hsp : setPdfPages k (loadPagesFromImages k n) s.cache with _ | c2 <;>
      simp only [prefetchRest, hcp, hsp] <;>
      constructor
    · show countManifest ((loadPagesFromImages k n).map Ev.imageWarm) + 1 = 1
      rw [countManifest_map_imageWarm]
    · show countRender ((loadPagesFromImages k n).map Ev.imageWarm) ≤ 1
      rw [countRender_map_imageWarm]
      decide
    · show countManifest ((loadPagesFromImages k n).map Ev.imageWarm) + 1 = 1
      rw [countManifest_map_imageWarm]
    · show countRender ((loadPagesFromImages k n).map Ev.imageWarm) ≤ 1
      rw [countRender_map_imageWarm]
      decide

/-- C2: when the guard passes, the key is added to the in-flight set by the
synchronous prefix of `prefetchPdf`, before its first suspension point
(`prefetchSync` models exactly the code before the first `await`); any
`prefetchPdf` call that starts while the key is in the in-flight set produces
no external events at all (no manifest read, no image warm, no rendering);
and under the cooperative schedule in which a second call for the same key
starts while the first is suspended, the combined trace contains exactly one
manifest read and at most one invocation of the rendering pipeline. -/
theorem prefetch_dedup (ora : Oracle) (k : String) (s : PState)
    (hc : (getPdfPages k s.cache).1 = none)
    (hf : s.inflight.contains k = false) :
    ((prefetchSync k s).2 = true ∧ (prefetchSync k s).1.inflight.contains k = true) ∧
    (∀ (ora2 : Oracle) (s' : PState), s'.inflight.contains k = true →
        (prefetchPdf ora2 k s').1 = []) ∧
    countManifest (runTwoPrefetch ora k s).1 = 1 ∧
    countRender (runTwoPrefetch ora k s).1 ≤ 1 := by
  have hclaim := prefetchSync_claims k s hc hf
  have hin : (k :: s.inflight).contains k = true := by simp
  have h2 := prefetchPdf_of_inflight_miss ora k ⟨s.cache, k :: s.inflight⟩ hc hin
  have hrun : runTwoPrefetch ora k s =
      ((prefetchRest ora k ⟨s.cache, k :: s.inflight⟩).1,
        (prefetchRest ora k ⟨s.cache, k :: s.inflight⟩).2) := by
    unfold runTwoPrefetch
    rw [hclaim]
    dsimp only []
    rw [h2]
    dsimp only []
    rw [List.nil_append]
  refine ⟨⟨by rw [hclaim], by rw [hclaim]; exact hin⟩, ?_, ?_, ?_⟩
  · exact fun ora2 s' h' => prefetchPdf_trace_of_inflight ora2 k s' h'
  · rw [hrun]
    exact (prefetchRest_counts ora k _).1
  · rw [hrun]
    exact (prefetchRest_counts ora k _).2

/-- Oracle with no manifest whose rendering pipeline always throws. -/
def ora0 : Oracle := ⟨none, fun _ => Except.error ()⟩

/-- Witness for `prefetch_dedup` at the empty state and key X. -/
theorem prefetch_dedup_witness :
    (getPdfPages "X" (⟨[], []⟩ : PState).cache).1 = none ∧
    (⟨[], []⟩ : PState).inflight.contains "X" = false ∧
    (countManifest (runTwoPrefetch ora0 "X" ⟨[], []⟩).1 = 1 ∧
     countRender (runTwoPrefetch ora0 "X" ⟨[], []⟩).1 ≤ 1) :=
  ⟨by decide, by decide,
   (prefetch_dedup ora0 "X" ⟨[], []⟩ (by decide) (by decide)).2.2⟩

/-- C4: if the key is not cached and not in flight, the manifest offers no
cheap path and the rendering pipeline throws, then `prefetchPdf` still
returns normally (the error is swallowed), the final state is exactly the
initial one — so the key is absent from the in-flight set and absent from
the cache (no partial write) — and a later `prefetchPdf` of the same key
passes the guard again and re-invokes the rendering pipeline. -/
theorem prefetch_error_cleanup (ora : Oracle) (k : String) (s : PState)
    (hc : (getPdfPages k s.cache).1 = none)
    (hf : s.inflight.contains k = false)
    (hm : cheapPages ora k = none)
    (hr : ora.render k = Except.error ()) :
    ∃ s', prefetchPdf ora k s = ([Ev.manifestLookup, Ev.renderDoc k], some s') ∧
      s' = s ∧
      s'.inflight.contains k = false ∧
      (getPdfPages k s'.cache).1 = none ∧
      (prefetchSync k s').2 = true ∧
      countRender (prefetchPdf ora k s').1 = 1 := by
  have hclaim := prefetchSync_claims k s hc hf
  have hpp : prefetchPdf ora k s = ([Ev.manifestLookup, Ev.renderDoc k], some s) := by
    unfold prefetchPdf
    rw [hclaim]
    simp only [prefetchRest, hm, hr]
    rw [setRemove_cons_self k s.inflight hf]
  exact ⟨s, hpp, rfl, hf, hc, by rw [hclaim], by rw [hpp]; rfl⟩

/-- Witness for `prefetch_error_cleanup` at the empty state and key Y. -/
theorem prefetch_error_cleanup_witness :
    (getPdfPages "Y" (⟨[], []⟩ : PState).cache).1 = none ∧
    cheapPages ora0 "Y" = none ∧
    ora0.render "Y" = Except.error () ∧
    ∃ s', prefetchPdf ora0 "Y" ⟨[], []⟩ =
        ([Ev.manifestLookup, Ev.renderDoc "Y"], some s') ∧
      s' = (⟨[], []⟩ : PState) ∧
      s'.inflight.contains "Y" = false ∧
      (getPdfPages "Y" s'.cache).1 = none ∧
      (prefetchSync "Y" s').2 = true ∧
      countRender (prefetchPdf ora0 "Y" s').1 = 1 :=
  ⟨by decide, rfl, rfl,
   prefetch_error_cleanup ora0 "Y" ⟨[], []⟩ (by decide) (by decide) rfl rfl⟩

/-- C5 (amended): for the prefetch of the file browser
(src/app/file-browser.tsx), when the manifest records N > 0 pages for an
uncached, unclaimed key, `prefetchPdf` never invokes the expensive rendering
pipeline: its trace is one manifest read followed by exactly N image
warm-ups, in increasing page order, for the URLs of the deterministic naming
convention; if the operation terminates, those N URLs are what was written
to the cache; and the naming convention zero-pads page numbers to 3 digits —
page 7 maps to page-007.  The restriction to the file-browser variant is
forced by `prefetch_manifest_path_cex`: the prefetch of
src/app/file/[...path]/page.tsx never consults the manifest and always
invokes the rendering pipeline. -/
theorem prefetch_manifest_path (ora : Oracle) (k : String) (s : PState) (n : Nat)
    (hc : (getPdfPages k s.cache).1 = none)
    (hf : s.inflight.contains k = false)
    (hm : manifestEntryPages ora k = some n) (hn : 0 < n) :
    (prefetchPdf ora k s).1 =
      Ev.manifestLookup ::
        (List.range n).map (fun i => Ev.imageWarm (getPageImageUrl k (i + 1))) ∧
    countRender (prefetchPdf ora k s).1 = 0 ∧
    (∀ s', (prefetchPdf ora k s).2 = some s' →
        mapGet k s'.cache = some (loadPagesFromImages k n)) ∧
    getPageImageUrl k 7 =
      WORKER_URL ++ "/pdfs-as-jpegs/" ++ replaceFirst k ".pdf" "" ++ "/page-" ++
        "007" ++ ".jpg" := by
  have hclaim := prefetchSync_claims k s hc hf
  have hcp : cheapPages ora k = some n := by
    simp [cheapPages, hm, hn]
  have hwarm : (loadPagesFromImages k n).map Ev.imageWarm =
      (List.range n).map (fun i => Ev.imageWarm (getPageImageUrl k (i + 1))) := by
    simp [loadPagesFromImages, List.map_map, Function.comp]
  rcases hsp : setPdfPages k (loadPagesFromImages k n) s.cache with _ | c2
  · have hpp : prefetchPdf ora k s =
        (Ev.manifestLookup :: (loadPagesFromImages k n).map Ev.imageWarm, none) := by
      unfold prefetchPdf
      rw [hclaim]
      simp only [prefetchRest, hcp, hsp]
    refine ⟨?_, ?_, ?_, rfl⟩
    · rw [hpp, hwarm]
    · rw [hpp]
      show countRender ((loadPagesFromImages k n).map Ev.imageWarm) = 0
      exact countRender_map_imageWarm _
    · intro s' h'
      rw [hpp] at h'
      exact absurd h' (by simp)
  · have hpp : prefetchPdf ora k s =
        (Ev.manifestLookup :: (loadPagesFromImages k n).map Ev.imageWarm,
          some ⟨c2, setRemove k (k :: s.inflight)⟩) := by
      unfold prefetchPdf
      rw [hclaim]
      simp only [prefetchRest, hcp, hsp]
    refine ⟨?_, ?_, ?_, rfl⟩
    · rw [hpp, hwarm]
    · rw [hpp]
      show countRender ((loadPagesFromImages k n).map Ev.imageWarm) = 0
      exact countRender_map_imageWarm _
    · intro s' h'
      rw [hpp] at h'
      simp only [Option.some.injEq] at h'
      rw [← h']
      exact setPdfPages_some_get k _ s.cache c2 hsp

/-- Oracle whose manifest records 3 pages for the document Z.pdf and whose
rendering pipeline always throws. -/
def oraM : Oracle := ⟨some [("Z.pdf", 3)], fun _ => Except.error ()⟩

/-- Continuation of the `prefetchPdf` of src/app/file/[...path]/page.tsx
(lines 26-63) after the claim: unlike the file-browser variant it has no
manifest branch — the `try` body goes straight to the pdfjs rendering
pipeline, the `catch` swallows any error and the `finally` removes the key
from that module's own `prefetchingSet` (line 16). -/
def prefetchRestPage (ora : Oracle) (k : String) (s : PState) : List Ev × Option PState :=
  match ora.render k with
  | Except.error _ => ([Ev.renderDoc k], some ⟨s.cache, setRemove k s.inflight⟩)
  | Except.ok pages =>
    if pages.length > 0 then
      match setPdfPages k pages s.cache with
      | none => ([Ev.renderDoc k], none)
      | some c2 => ([Ev.renderDoc k], some ⟨c2, setRemove k s.inflight⟩)
    else ([Ev.renderDoc k], some ⟨s.cache, setRemove k s.inflight⟩)

/-- Model of one `prefetchPdf` call of src/app/file/[...path]/page.tsx
(lines 18-64) run to completion: the guard and in-flight claim are the same
synchronous prefix as in the file-browser variant. -/
def prefetchPdfPage (ora : Oracle) (k : String) (s : PState) : List Ev × Option PState :=
  match prefetchSync k s with
  | (s1, true) => prefetchRestPage ora k s1
  | (s1, false) => ([], some s1)

/-- C5 counterexample: the claim also covers the `prefetchPdf` of
src/app/file/[...path]/page.tsx, which never consults the manifest.
Prefetching the uncached, unclaimed key Z.pdf through it — although the
manifest records 3 > 0 pages for Z.pdf — still invokes the expensive
rendering pipeline (one render invocation) and resolves none of the
deterministic page-image URLs (no manifest read, no image warm-ups),
falsifying the claim as stated. -/
theorem prefetch_manifest_path_cex :
    manifestEntryPages oraM "Z.pdf" = some 3 ∧
    (prefetchPdfPage oraM "Z.pdf" ⟨[], []⟩).1 = [Ev.renderDoc "Z.pdf"] ∧
    countRender (prefetchPdfPage oraM "Z.pdf" ⟨[], []⟩).1 = 1 ∧
    countManifest (prefetchPdfPage oraM "Z.pdf" ⟨[], []⟩).1 = 0 := by decide

/-- Witness for `prefetch_manifest_path` at the empty state, key Z.pdf and a
3-page manifest entry. -/
theorem prefetch_manifest_path_witness :
    (getPdfPages "Z.pdf" (⟨[], []⟩ : PState).cache).1 = none ∧
    manifestEntryPages oraM "Z.pdf" = some 3 ∧
    ((prefetchPdf oraM "Z.pdf" ⟨[], []⟩).1 =
      Ev.manifestLookup ::
        (List.range 3).map (fun i => Ev.imageWarm (getPageImageUrl "Z.pdf" (i + 1))) ∧
     countRender (prefetchPdf oraM "Z.pdf" ⟨[], []⟩).1 = 0 ∧
     (∀ s', (prefetchPdf oraM "Z.pdf" ⟨[], []⟩).2 = some s' →
        mapGet "Z.pdf" s'.cache = some (loadPagesFromImages "Z.pdf" 3)) ∧
     getPageImageUrl "Z.pdf" 7 =
       WORKER_URL ++ "/pdfs-as-jpegs/" ++ replaceFirst "Z.pdf" ".pdf" "" ++ "/page-" ++
         "007" ++ ".jpg") :=
  ⟨by decide, rfl,
   prefetch_manifest_path oraM "Z.pdf" ⟨[], []⟩ 3 (by decide) (by decide) rfl (by decide)⟩

/-- State whose cache holds X (oldest) and Y, with nothing in flight. -/
def hitState : PState := ⟨[("X", ["x"]), ("Y", ["y"])], []⟩

/-- C7 counterexample: with X present in the cache (but not in
most-recently-used position), `prefetchPdf X` performs no external calls and
returns at the guard, yet the cache is NOT left exactly as it was: the
guard's `getPdfPages` call moves X to the most-recently-used position,
changing the recency order from [X, Y] to [Y, X]. -/
theorem prefetch_hit_recency_cex :
    (prefetchPdf ora0 "X" hitState).1 = [] ∧
    (prefetchPdf ora0 "X" hitState).2 =
      some ⟨[("Y", ["y"]), ("X", ["x"])], []⟩ ∧
    ((prefetchPdf ora0 "X" hitState).2.map PState.cache) ≠ some hitState.cache := by
  decide

/-- C7 (amended): when the key is present in the cache, `prefetchPdf` returns
at the guard with an empty event trace (zero manifest reads, image warms and
render invocations) and leaves the in-flight set and the set of cache
entries — every key's value — unchanged; the single state change is that the
guard's `getPdfPages` call refreshes the key's recency, moving its entry to
the most-recently-used (last) position, as `get`'s contract prescribes. -/
theorem prefetch_hit_noop (ora : Oracle) (k : String) (s : PState) (v : List String)
    (hc : (getPdfPages k s.cache).1 = some v) :
    (prefetchPdf ora k s).1 = [] ∧
    (prefetchPdf ora k s).2 = some ⟨(getPdfPages k s.cache).2, s.inflight⟩ ∧
    (∀ j, mapGet j (getPdfPages k s.cache).2 = mapGet j s.cache) ∧
    ((getPdfPages k s.cache).2).getLast? = some (k, v) := by
  have hmg : mapGet k s.cache = some v := by
    rw [← getPdfPages_fst]
    exact hc
  have hgp : getPdfPages k s.cache = (some v, mapSet k v (mapDelete k s.cache)) := by
    simp [getPdfPages, hmg]
  have happ : mapSet k v (mapDelete k s.cache) = mapDelete k s.cache ++ [(k, v)] :=
    mapSet_of_not_has _ _ _ ((mapHas_eq_false_iff _ _).2 (not_mem_mapDelete k s.cache))
  have hpp : prefetchPdf ora k s =
      ([], some ⟨mapSet k v (mapDelete k s.cache), s.inflight⟩) := by
    unfold prefetchPdf prefetchSync
    rw [hgp]
  refine ⟨by rw [hpp], by rw [hpp, hgp], ?_, ?_⟩
  · intro j
    rw [hgp]
    dsimp only []
    rw [happ]
    by_cases hj : j = k
    · rw [hj, mapGet_append_self k v _ (not_mem_mapDelete k s.cache), hmg]
    · rw [mapGet_append_ne j k v _ hj, mapGet_mapDelete_ne k j s.cache hj]
  · rw [hgp]
    dsimp only []
    rw [happ]
    exact List.getLast?_concat _

/-- Witness for `prefetch_hit_noop` at the concrete state `hitState`. -/
theorem prefetch_hit_noop_witness :
    (getPdfPages "X" hitState.cache).1 = some ["x"] ∧
    ((prefetchPdf ora0 "X" hitState).1 = [] ∧
     (prefetchPdf ora0 "X" hitState).2 =
       some ⟨(getPdfPages "X" hitState.cache).2, hitState.inflight⟩ ∧
     (∀ j, mapGet j (getPdfPages "X" hitState.cache).2 = mapGet j hitState.cache) ∧
     ((getPdfPages "X" hitState.cache).2).getLast? = some ("X", ["x"])) :=
  ⟨by decide, prefetch_hit_noop ora0 "X" hitState ["x"] (by decide)⟩

/-- State writes of the direct load path, as observable effects: the
progressive per-page pages write `setPages([...renderedPages])` holding n
pages, the cache write `setPdfPages`, the error write `setError`, and
`setLoading(false)`. -/
inductive Write where
  | setPagesW : Nat → Write
  | setPdfPagesW : Write
  | setErrorW : Write
  | setLoadingFalseW : Write
deriving DecidableEq, Repr

/-- Value of the `cancelled` flag at a point where `a` awaits have completed,
when the owning view is torn down while await number `cT` (1-based, in
execution order) is pending: code running after await `cT` completes
observes the flag set.  `none` means the view is never torn down. -/
def cancelledAt (cT : Option Nat) (a : Nat) : Bool :=
  match cT with
  | none => false
  | some t => decide (t ≤ a)

/-- Result of the page-render loop of `loadPages`. -/
structure LoopResult where
  writes : List (Write × Bool)
  awaits : Nat
  aborted : Bool
  threw : Bool
deriving DecidableEq, Repr

/-- Model of the render loop of `loadPages` (src/app/file-browser.tsx lines
436-458): each iteration first checks `if (cancelled) return;`, then awaits
`pdf.getPage` and `page.render` (two suspension points), then performs
`setPages([...renderedPages])` WITHOUT re-checking the flag.  Each write is
paired with the value of `cancelled` at the moment it is performed.
`failAt` gives the 1-based page number whose render rejects (the loop then
exits by the exception); `rem` pages remain, `done` pages are already
rendered, `a` awaits have completed so far. -/
def renderLoop (cT failAt : Option Nat) : Nat → Nat → Nat → LoopResult
  | 0, _, a => ⟨[], a, false, false⟩
  | rem + 1, done, a =>
    if cancelledAt cT a then ⟨[], a, true, false⟩
    else if failAt = some (done + 1) then ⟨[], a + 2, false, true⟩
    else
      let r := renderLoop cT failAt rem (done + 1) (a + 2)
      ⟨(Write.setPagesW (done + 1), cancelledAt cT (a + 2)) :: r.writes,
        r.awaits, r.aborted, r.threw⟩

/-- Fallback (pdfjs) branch of `loadPages` (src/app/file-browser.tsx lines
425-471): `await import(..)` and `await loadingTask.promise` are awaits 1
and 2, followed by `if (cancelled) return;`, the render loop, the guarded
final cache write `if (!cancelled && renderedPages.length > 0)
setPdfPages(..)`, the `catch` write `if (!cancelled) setError(..)` and the
`finally` write `if (!cancelled) setLoading(false)`. -/
def loadPagesRender (numPages : Nat) (cT failAt : Option Nat) : List (Write × Bool) :=
  if cancelledAt cT 2 then []
  else
    let r := renderLoop cT failAt numPages 0 2
    let cEnd := cancelledAt cT r.awaits
    if r.aborted then r.writes
    else if r.threw then
      r.writes ++
        ((if cEnd then [] else [(Write.setErrorW, cEnd)]) ++
          (if cEnd then [] else [(Write.setLoadingFalseW, cEnd)]))
    else
      r.writes ++
        ((if ¬cEnd ∧ numPages > 0 then [(Write.setPdfPagesW, cEnd)] else []) ++
          (if cEnd then [] else [(Write.setLoadingFalseW, cEnd)]))

/-- Model of `loadPages` (src/app/file-browser.tsx lines 405-474): the
manifest path (`manifestEntry && manifestEntry.pages > 0`) performs one
await (`loadPagesFromImages`), re-checks the flag, then writes pages, cache
and loading state (and `finally` writes loading state again); otherwise the
pdfjs fallback runs.  Every write is paired with the value of `cancelled` at
the moment it is performed. -/
def loadPagesWrites (manifestPages : Option Nat) (numPages : Nat)
    (cT failAt : Option Nat) : List (Write × Bool) :=
  match manifestPages with
  | some n =>
    if n > 0 then
      if cancelledAt cT 1 then []
      else
        [(Write.setPagesW n, cancelledAt cT 1), (Write.setPdfPagesW, cancelledAt cT 1),
         (Write.setLoadingFalseW, cancelledAt cT 1),
         (Write.setLoadingFalseW, cancelledAt cT 1)]
    else loadPagesRender numPages cT failAt
  | none => loadPagesRender numPages cT failAt

theorem renderLoop_succ_cancel (cT failAt : Option Nat) (rem done a : Nat)
    (h : cancelledAt cT a = true) :
    renderLoop cT failAt (rem + 1) done a = ⟨[], a, true, false⟩ := by
  rw [renderLoop, if_pos h]

theorem renderLoop_succ_fail (cT failAt : Option Nat) (rem done a : Nat)
    (h1 : cancelledAt cT a = false) (h2 : failAt = some (done + 1)) :
    renderLoop cT failAt (rem + 1) done a = ⟨[], a + 2, false, true⟩ := by
  rw [renderLoop, if_neg (by simp [h1]), if_pos h2]

theorem renderLoop_succ_ok (cT failAt : Option Nat) (rem done a : Nat)
    (h1 : cancelledAt cT a = false) (h2 : ¬failAt = some (done + 1)) :
    renderLoop cT failAt (rem + 1) done a =
      ⟨(Write.setPagesW (done + 1), cancelledAt cT (a + 2)) ::
          (renderLoop cT failAt rem (done + 1) (a + 2)).writes,
        (renderLoop cT failAt rem (done + 1) (a + 2)).awaits,
        (renderLoop cT failAt rem (done + 1) (a + 2)).aborted,
        (renderLoop cT failAt rem (done + 1) (a + 2)).threw⟩ := by
  rw [renderLoop, if_neg (by simp [h1]), if_neg h2]

theorem renderLoop_post (cT failAt : Option Nat) (rem done a : Nat) :
    ((renderLoop cT failAt rem done a).writes.filter (fun w => w.2)).length ≤ 1 ∧
    ∀ w ∈ (renderLoop cT failAt rem done a).writes.filter (fun w => w.2),
      ∃ n, w.1 = Write.setPagesW n := by
  induction rem generalizing done a with
  | zero => simp [renderLoop]
  | succ rem ih =>
    cases hcan : cancelledAt cT a with
    | true =>
      rw [renderLoop_succ_cancel cT failAt rem done a hcan]
      simp
    | false =>
      by_cases hfail : failAt = some (done + 1)
      · rw [renderLoop_succ_fail cT failAt rem done a hcan hfail]
        simp
      · rw [renderLoop_succ_ok cT failAt rem done a hcan hfail]
        dsimp only []
        rw [List.filter_cons]
        cases hc2 : cancelledAt cT (a + 2) with
        | false =>
          rw [if_neg Bool.false_ne_true]
          exact ih (done + 1) (a + 2)
        | true =>
          have hrest : (renderLoop cT failAt rem (done + 1) (a + 2)).writes = [] := by
            cases rem with
            | zero => rfl
            | succ m => rw [renderLoop_succ_cancel cT failAt m (done + 1) (a + 2) hc2]
          rw [hrest, if_pos rfl]
          refine ⟨by simp, ?_⟩
          intro w hw
          simp only [List.filter_nil, List.mem_singleton] at hw
          rw [hw]
          exact ⟨done + 1, rfl⟩

theorem filter_snd_append_flagged (l tail : List (Write × Bool))
    (h : ∀ w ∈ tail, w.2 = false) :
    (l ++ tail).filter (fun w => w.2) = l.filter (fun w => w.2) := by
  rw [List.filter_append]
  have htail : tail.filter (fun w => w.2) = [] := by
    induction tail with
    | nil => rfl
    | cons x t ihx =>
      rw [List.filter_cons, if_neg (by rw [h x (List.mem_cons_self _ _)]; decide)]
      exact ihx (fun w hw => h w (List.mem_cons_of_mem _ hw))
  rw [htail, List.append_nil]

theorem loadPagesRender_post (numPages : Nat) (cT failAt : Option Nat) :
    ((loadPagesRender numPages cT failAt).filter (fun w => w.2)).length ≤ 1 ∧
    ∀ w ∈ (loadPagesRender numPages cT failAt).filter (fun w => w.2),
      ∃ n, w.1 = Write.setPagesW n := by
  have hrl := renderLoop_post cT failAt numPages 0 2
  unfold loadPagesRender
  by_cases h2 : cancelledAt cT 2 = true
  · rw [if_pos h2]
    simp
  · rw [if_neg h2]
    dsimp only []
    cases ha : (renderLoop cT failAt numPages 0 2).aborted with
    | true =>
      rw [if_pos rfl]
      exact hrl
    | false =>
      rw [if_neg (by decide)]
      cases ht : (renderLoop cT failAt numPages 0 2).threw with
      | true =>
        rw [if_pos rfl]
        cases hce : cancelledAt cT ((renderLoop cT failAt numPages 0 2).awaits) with
        | true =>
          rw [filter_snd_append_flagged _ _ (by simp)]
          exact hrl
        | false =>
          rw [filter_snd_append_flagged _ _ (by simp)]
          exact hrl
      | false =>
        rw [if_neg (by decide)]
        cases hce : cancelledAt cT ((renderLoop cT failAt numPages 0 2).awaits) with
        | true =>
          rw [filter_snd_append_flagged _ _ (by simp)]
          exact hrl
        | false =>
          by_cases hnp : numPages > 0
          · rw [filter_snd_append_flagged _ _ (by simp [hnp])]
            exact hrl
          · rw [filter_snd_append_flagged _ _ (by simp [hnp])]
            exact hrl

/-- C8 (amended): in the direct load path, after the cancellation flag is
set, the cache write (`setPdfPages`), the error write and the loading-state
write never occur, and at most one further write can occur at all: the
progressive per-page pages write for the page whose rendering was in flight
when the flag was set — the loop re-checks the flag only at the top of each
iteration, not after the two awaits that precede the write. -/
theorem loadPages_cancel_writes (mp : Option Nat) (numPages : Nat)
    (cT failAt : Option Nat) :
    ((loadPagesWrites mp numPages cT failAt).filter (fun w => w.2)).length ≤ 1 ∧
    ∀ w ∈ (loadPagesWrites mp numPages cT failAt).filter (fun w => w.2),
      ∃ n, w.1 = Write.setPagesW n := by
  rcases mp with _ | n
  · exact loadPagesRender_post numPages cT failAt
  · by_cases hn : n > 0
    · cases hc1 : cancelledAt cT 1 with
      | true =>
        simp only [loadPagesWrites, if_pos hn, hc1, if_pos rfl]
        simp
      | false =>
        simp only [loadPagesWrites, if_pos hn, hc1]
        rw [if_neg (by decide)]
        simp
    · simp only [loadPagesWrites, if_neg hn]
      exact loadPagesRender_post numPages cT failAt

/-- C8 counterexample: with 2 pages to render and the view torn down while
the first page's render (await number 4) is pending, the step that completes
after cancellation still performs the progressive pages write — the
post-cancellation write list is not empty, as the claim would require, but
holds exactly that one write. -/
theorem loadPages_cancel_cex :
    (loadPagesWrites none 2 (some 4) none).filter (fun w => w.2) ≠ [] ∧
    (loadPagesWrites none 2 (some 4) none).filter (fun w => w.2) =
      [(Write.setPagesW 1, true)] := by decide

/-- Witness for `loadPages_cancel_writes` at the inputs of the
counterexample scenario, with the membership hypothesis discharged at the
concrete write. -/
theorem loadPages_cancel_writes_witness :
    ((loadPagesWrites none 2 (some 4) none).filter (fun w => w.2)).length ≤ 1 ∧
    ∃ n, (Write.setPagesW 1, true).1 = Write.setPagesW n :=
  ⟨(loadPages_cancel_writes none 2 (some 4) none).1,
   (loadPages_cancel_writes none 2 (some 4) none).2 (Write.setPagesW 1, true) (by decide)⟩

end EpsteinBrowser
